import Mathlib

/-!
Shallow embedding of `dscribe/descriptors/soap.py` (class `SOAP`).

Modelling conventions:
* Python ints are `ℤ` (or `ℕ` where the source guarantees nonnegativity),
  Python floats are exact rationals `ℚ` (all float operations appearing in the
  embedded index/size computations are exact: products of small integers and
  divisions by two of even integers), and `int(x)` on a nonnegative value is
  `Int.floor`.
* Real-valued basis mathematics (`get_basis_gto`) is embedded over `ℝ`.
* External library routines (`scipy.linalg.sqrtm`/`inv`) are abstracted: the
  numerical matrix square root is a parameter returning `none` when the
  computed square root is complex (`betas.dtype == np.complex128`).
* Exceptions are `Except`/`Option` error values.
-/

namespace Soap

/-- `SOAP.get_number_of_features` (soap.py lines 738-750).  `n_elem` is
`len(self._atomic_numbers)`; the Python body computes with float division and
truncates with `int(...)`, modelled as `Int.floor` of exact rationals. -/
def get_number_of_features (n_elem nmax lmax : ℕ) (crossover : Bool) : ℤ :=
  if crossover then
    ⌊((n_elem * nmax : ℕ) : ℚ) * ((n_elem * nmax : ℕ) + 1) / 2 * (lmax + 1)⌋
  else
    ⌊(n_elem : ℚ) * nmax * (nmax + 1) / 2 * (lmax + 1)⌋

/-- Errors raised by `SOAP.get_location` (all `ValueError` in the source). -/
inductive LocErr where
  | notInSpecies (z : ℕ)
  | noCross
  deriving DecidableEq, Repr

/-- `n_elem_feat_symm = self._nmax*(self._nmax+1)/2*(self._lmax + 1)`
(soap.py line 801), float arithmetic modelled exactly over `ℚ`. -/
def n_elem_feat_symmQ (nmax lmax : ℕ) : ℚ := nmax * (nmax + 1) / 2 * (lmax + 1)

/-- `n_elem_feat_unsymm = self._nmax*self._nmax*(self._lmax + 1)`
(soap.py line 804). -/
def n_elem_feat_unsymmQ (nmax lmax : ℕ) : ℚ := nmax * nmax * (lmax + 1)

/-- `SOAP.get_location` (soap.py lines 752-823), for a pair of atomic numbers.
`sp` is the configured species list `self._atomic_numbers` (the internal
ordering); `sp.indexOf` is `self.atomic_number_to_index`.  The chemical-symbol
lookup through `ase.data.atomic_numbers` (an external table) is outside the
embedding, so the two species are given as atomic numbers directly, and the
`len(species) != 2` check is enforced by the two-argument type. -/
def get_location (sp : List ℕ) (nmax lmax : ℕ) (crossover : Bool)
    (z1 z2 : ℕ) : Except LocErr (ℤ × ℤ) :=
  if z1 ∈ sp then
    if z2 ∈ sp then
      let i0 := sp.indexOf z1
      let j0 := sp.indexOf z2
      -- `if numbers[0] > numbers[1]: numbers = list(reversed(numbers))`
      let i := if j0 < i0 then j0 else i0
      let j := if j0 < i0 then i0 else j0
      let n_elem : ℚ := sp.length
      let symm : ℚ := n_elem_feat_symmQ nmax lmax
      if crossover then
        let unsymm : ℚ := n_elem_feat_unsymmQ nmax lmax
        let feat : ℚ := if i = j then symm else unsymm
        let m_symm : ℚ := i + (if i < j then 1 else 0)
        let m_unsymm : ℚ := j + i * n_elem - i * (i + 1) / 2 - m_symm
        let s : ℤ := ⌊m_symm * symm + m_unsymm * unsymm⌋
        Except.ok (s, ⌊(s : ℚ) + feat⌋)
      else
        if i = j then
          let s : ℤ := ⌊(i : ℚ) * symm⌋
          Except.ok (s, ⌊(s : ℚ) + symm⌋)
        else
          Except.error .noCross
    else Except.error (.notInSpecies z2)
  else Except.error (.notInSpecies z1)

/-! ### Closed-form natural-number counterparts of the slice arithmetic

These are derived quantities used to state and prove the combinatorial
properties of `get_location` and `get_number_of_features`; the embeddings
above remain the authoritative translations of the source. -/

/-- `nmax*(nmax+1)/2*(lmax+1)` as a natural number (the division is exact). -/
def featSymm (N L : ℕ) : ℕ := N * (N + 1) / 2 * (L + 1)

/-- `nmax*nmax*(lmax+1)` as a natural number. -/
def featUnsymm (N L : ℕ) : ℕ := N * N * (L + 1)

/-- Number of strictly-upper-triangular (off-diagonal) index pairs contained
in the first `i` rows of an `n × n` upper triangle. -/
def offBefore (n : ℕ) : ℕ → ℕ
  | 0 => 0
  | i + 1 => offBefore n i + (n - 1 - i)

/-- Closed form for the start of the `(i, j)` block (`i ≤ j`) in the
crossover feature layout. -/
def locStartN (n N L i j : ℕ) : ℕ :=
  if i = j then i * featSymm N L + offBefore n i * featUnsymm N L
  else (i + 1) * featSymm N L + (offBefore n i + (j - i - 1)) * featUnsymm N L

/-- Size of the `(i, j)` block in the crossover feature layout. -/
def sizeN (N L i j : ℕ) : ℕ := if i = j then featSymm N L else featUnsymm N L

/-- Closed form of the crossover feature count. -/
def nFeatN (n N L : ℕ) : ℕ := (n * N) * (n * N + 1) / 2 * (L + 1)

/-- Closed form of the no-crossover feature count. -/
def noCrossN (n N L : ℕ) : ℕ := n * N * (N + 1) / 2 * (L + 1)

/-- The `(i, j)` feature slice as a finite set of `ℤ` indices (closed form). -/
def sliceIcoZ (n N L i j : ℕ) : Finset ℤ :=
  Finset.Ico ((locStartN n N L i j : ℕ) : ℤ) ((locStartN n N L i j + sizeN N L i j : ℕ) : ℤ)

/-- All unordered index pairs `(i, j)`, `i ≤ j < n`, of configured species. -/
def validPairs (n : ℕ) : Finset (ℕ × ℕ) :=
  (Finset.range n).biUnion (fun i => (Finset.Ico i n).image (fun j => (i, j)))

/-- The integer index set covered by a `get_location` slice (empty on error). -/
def sliceOfExcept : Except LocErr (ℤ × ℤ) → Finset ℤ
  | Except.ok se => Finset.Ico se.1 se.2
  | Except.error _ => ∅

/-- The feature-index set addressed by `get_location` for the pair of
configured species at positions `p.1`, `p.2` of the species list. -/
def sliceFin (sp : List ℕ) (N L : ℕ) (p : ℕ × ℕ) : Finset ℤ :=
  sliceOfExcept (get_location sp N L true (sp.getD p.1 0) (sp.getD p.2 0))

/-- Errors raised by the validation prefix of `SOAP.derivatives`
(soap.py lines 472-489); all are `ValueError` in the source. -/
inductive DerivErr where
  | invalidMethod
  | sparseDerivs
  | analyticalAveraged
  | periodicDerivs
  | analyticalPoly
  deriving DecidableEq, Repr

/-- The eager validation sequence at the top of `SOAP.derivatives`
(soap.py lines 472-489), performed before any dispatch or computation.
Returns the first error raised, or `none` when validation passes. -/
def derivatives_validate (sparse : Bool) (average : String) (periodic : Bool)
    (rbf : String) (method : String) : Option DerivErr :=
  if ¬ (method = "numerical" ∨ method = "analytical" ∨ method = "auto") then
    some DerivErr.invalidMethod
  else if sparse then some DerivErr.sparseDerivs
  else if average ≠ "off" ∧ method = "analytical" then some DerivErr.analyticalAveraged
  else if periodic then some DerivErr.periodicDerivs
  else if rbf = "polynomial" ∧ method = "analytical" then some DerivErr.analyticalPoly
  else none

/-- `SOAP.derivatives` as validate-then-compute: the body after the
validation prefix (method resolution, dispatch, extension calls) is
abstracted as `compute`, which runs only when validation passes. -/
def derivatives_run {δ : Type} (compute : Unit → δ) (sparse : Bool) (average : String)
    (periodic : Bool) (rbf : String) (method : String) : Except DerivErr δ :=
  match derivatives_validate sparse average periodic rbf method with
  | some e => Except.error e
  | none => Except.ok (compute ())

/-- Decidable equality for `Except` results (both components decidable). -/
instance {e a : Type} [DecidableEq e] [DecidableEq a] : DecidableEq (Except e a) := fun x y =>
  match x, y with
  | Except.ok u, Except.ok v => decidable_of_iff (u = v) (by simp)
  | Except.error u, Except.error v => decidable_of_iff (u = v) (by simp)
  | Except.ok _, Except.error _ => isFalse (by simp)
  | Except.error _, Except.ok _ => isFalse (by simp)

/-- Errors raised by `SOAP.__init__` (soap.py lines 106-168); all are
`ValueError` in the source. -/
inductive InitErr where
  | badSpecies
  | badSigma
  | negLmax
  | badRbf
  | badNmax
  | badAverage
  | gtoSmallRcut
  | gtoLargeLmax
  | gtoNumerical
  | polyLargeLmax
  deriving DecidableEq, Repr

/-- The validation sequence of `SOAP.__init__` (soap.py lines 106-168), in
source order.  `speciesOk` abstracts the species setter
(`Descriptor._set_species`, not part of this file's source; modelled from the
spec as a check that may fail for invalid species input), and `gtoBasisOk`
abstracts whether the `get_basis_gto` precomputation at line 154 succeeds
(its numerical error is modelled separately by `get_basis_gto` below). -/
def soap_init (speciesOk gtoBasisOk : Bool) (rcut sigma : ℚ) (nmax lmax : ℤ)
    (rbf average : String) : Except InitErr Unit :=
  if ¬ speciesOk then Except.error InitErr.badSpecies
  else if sigma ≤ 0 then Except.error InitErr.badSigma
  else if lmax < 0 then Except.error InitErr.negLmax
  else if ¬ (rbf = "gto" ∨ rbf = "polynomial") then Except.error InitErr.badRbf
  else if nmax < 1 then Except.error InitErr.badNmax
  else if ¬ (average = "off" ∨ average = "inner" ∨ average = "outer") then
    Except.error InitErr.badAverage
  else if rbf = "gto" then
    if rcut ≤ 1 then Except.error InitErr.gtoSmallRcut
    else if lmax > 19 then Except.error InitErr.gtoLargeLmax
    else if ¬ gtoBasisOk then Except.error InitErr.gtoNumerical
    else Except.ok ()
  else
    if lmax > 20 then Except.error InitErr.polyLargeLmax
    else Except.ok ()

/-- A Python value as far as `prepare_centers` inspects one: an integer
(`np.issubdtype(type(i), np.integer)`), a sequence (`list`/`tuple`/`ndarray`),
or anything else. -/
inductive PyVal where
  | int (i : ℤ)
  | seq (xs : List PyVal)
  | other

/-- The atomic structure as consumed by `prepare_centers`: positions, atomic
numbers, and a 3x3 cell (floats modelled as exact rationals). -/
structure PySystem where
  positions : List (ℚ × ℚ × ℚ)
  numbers : List ℕ
  cell : (ℚ × ℚ × ℚ) × (ℚ × ℚ × ℚ) × (ℚ × ℚ × ℚ)
  deriving DecidableEq, Repr

/-- `np.cross` of two 3-vectors. -/
def cross3 (a b : ℚ × ℚ × ℚ) : ℚ × ℚ × ℚ :=
  (a.2.1 * b.2.2 - a.2.2 * b.2.1,
   a.2.2 * b.1 - a.1 * b.2.2,
   a.1 * b.2.1 - a.2.1 * b.1)

/-- Dot product of two 3-vectors. -/
def dot3 (a b : ℚ × ℚ × ℚ) : ℚ := a.1 * b.1 + a.2.1 * b.2.1 + a.2.2 * b.2.2

/-- `np.cross(cell[0], cell[1]).dot(cell[2])` (soap.py line 183). -/
def tripleProduct (c : (ℚ × ℚ × ℚ) × (ℚ × ℚ × ℚ) × (ℚ × ℚ × ℚ)) : ℚ :=
  dot3 (cross3 c.1 c.2.1) c.2.2

/-- One requested center: an atom index or a raw Cartesian 3-sequence (the
source appends the entry itself to `list_positions`). -/
inductive Center where
  | ofIndex (i : ℤ)
  | ofPoint (v : List PyVal)

/-- Errors raised by `prepare_centers` (soap.py lines 170-215).  `species`
and `cell` and `badPositions` are `ValueError`s; `indexRange` is the
`IndexError` from indexing `system.get_positions()` out of range. -/
inductive PrepErr where
  | species
  | cell
  | badPositions
  | indexRange
  deriving DecidableEq, Repr

/-- Validation of one entry of the `positions` argument (soap.py 204-213). -/
def parseEntry (nAtoms : ℕ) : PyVal → Except PrepErr Center
  | PyVal.int i =>
      if -(nAtoms : ℤ) ≤ i ∧ i < nAtoms then Except.ok (Center.ofIndex i)
      else Except.error PrepErr.indexRange
  | PyVal.seq ys =>
      if ys.length = 3 then Except.ok (Center.ofPoint ys)
      else Except.error PrepErr.badPositions
  | PyVal.other => Except.error PrepErr.badPositions

/-- The entry loop of `prepare_centers` (soap.py 202-213), stopping at the
first invalid entry as the source's `raise` does. -/
def parseEntries (nAtoms : ℕ) : List PyVal → Except PrepErr (List Center)
  | [] => Except.ok []
  | x :: xs =>
      match parseEntry nAtoms x with
      | Except.error e => Except.error e
      | Except.ok c =>
          match parseEntries nAtoms xs with
          | Except.error e => Except.error e
          | Except.ok cs => Except.ok (c :: cs)

/-- The `positions` handling of `prepare_centers` (soap.py lines 188-215):
`None` selects all atoms; otherwise the argument must be a non-empty
sequence of entries. -/
def positionsDispatch (nAtoms : ℕ) : Option PyVal → Except PrepErr (List Center)
  | none => Except.ok ((List.range nAtoms).map (fun i => Center.ofIndex i))
  | some (PyVal.seq xs) =>
      if xs.length = 0 then Except.error PrepErr.badPositions
      else parseEntries nAtoms xs
  | some _ => Except.error PrepErr.badPositions

/-- `SOAP.prepare_centers` (soap.py lines 170-215).  The species check at
line 178 (`Descriptor.check_atomic_numbers`, not part of this file's source)
is modelled from the spec: every atomic number of the structure must be among
the configured species or the call fails.  The fetched Cartesian coordinates
are abstracted into `Center` (the claims below concern the
validation/error behaviour). -/
def prepare_centers (species : List ℕ) (periodic : Bool) (sys : PySystem)
    (positions : Option PyVal) : Except PrepErr (List Center) :=
  if ¬ sys.numbers.all (fun z => species.contains z) then Except.error PrepErr.species
  else if periodic ∧ tripleProduct sys.cell = 0 then Except.error PrepErr.cell
  else positionsDispatch sys.positions.length positions

/-- `a = np.linspace(1, rcut, nmax)` (soap.py line 839): the `k`-th decay
radius, `k < nmax`.  numpy yields `[1]` for `nmax = 1` and step
`(rcut-1)/(nmax-1)` otherwise. -/
noncomputable def gto_a (rcut : ℝ) (nmax : ℕ) (k : ℕ) : ℝ :=
  if nmax = 1 then 1 else 1 + k * (rcut - 1) / ((nmax : ℝ) - 1)

/-- `alphas = -np.log(threshold/np.power(a, l))/a**2` with `threshold=1e-3`
(soap.py lines 840, 848). -/
noncomputable def gto_alphas (rcut : ℝ) (nmax : ℕ) (l k : ℕ) : ℝ :=
  -Real.log (0.001 / gto_a rcut nmax k ^ l) / gto_a rcut nmax k ^ 2

/-- The analytic overlap matrix `S = 0.5*gamma(l+3/2)*m**(-l-3/2)` with
`m[p][q] = alphas[p] + alphas[q]` (soap.py lines 851-854). -/
noncomputable def gto_S (rcut : ℝ) (nmax : ℕ) (l : ℕ) :
    Matrix (Fin nmax) (Fin nmax) ℝ :=
  fun p q => 0.5 * Real.Gamma ((l : ℝ) + 3 / 2)
    * (gto_alphas rcut nmax l p + gto_alphas rcut nmax l q) ^ (-(l : ℝ) - 3 / 2)

/-- `SOAP.get_basis_gto` (soap.py lines 825-872).  The numerical matrix
square root `scipy.linalg.sqrtm` composed with `scipy.linalg.inv` is an
external library routine, abstracted as the parameter `sqrtm`, which returns
`none` exactly when the computed square root is complex
(`betas.dtype == np.complex128`).  The source loop runs `l = 0..9` and
raises at the first complex result; the `Option`-valued result agrees. -/
noncomputable def get_basis_gto (nmax : ℕ)
    (sqrtm : Matrix (Fin nmax) (Fin nmax) ℝ → Option (Matrix (Fin nmax) (Fin nmax) ℝ))
    (rcut : ℝ) :
    Option ((Fin 10 → ℕ → ℝ) × (Fin 10 → Matrix (Fin nmax) (Fin nmax) ℝ)) :=
  if h : ∀ l : Fin 10, (sqrtm (gto_S rcut nmax l)⁻¹).isSome then
    some (fun l k => gto_alphas rcut nmax l k,
          fun l => (sqrtm (gto_S rcut nmax l)⁻¹).get (h l))
  else none

theorem featSymm_cast (N L : ℕ) : ((featSymm N L : ℕ) : ℚ) = n_elem_feat_symmQ N L := by
  have h2 : (2 : ℕ) ∣ N * (N + 1) := (Nat.even_mul_succ_self N).two_dvd
  rw [featSymm, n_elem_feat_symmQ, Nat.cast_mul, Nat.cast_div h2 (by norm_num)]
  push_cast
  ring

theorem featUnsymm_cast (N L : ℕ) :
    ((featUnsymm N L : ℕ) : ℚ) = n_elem_feat_unsymmQ N L := by
  rw [featUnsymm, n_elem_feat_unsymmQ]
  push_cast
  ring

theorem offBefore_cast (n : ℕ) : ∀ i, i ≤ n →
    ((offBefore n i : ℕ) : ℚ) = i * n - i * (i + 1) / 2
  | 0, _ => by simp [offBefore]
  | i + 1, h => by
    have hi : i ≤ n := Nat.le_of_succ_le h
    have hcast : ((n - 1 - i : ℕ) : ℚ) = n - 1 - i := by
      have : (1 : ℕ) + i ≤ n := by omega
      push_cast [Nat.sub_sub, Nat.cast_sub this]
      ring
    rw [offBefore, Nat.cast_add, offBefore_cast n i hi, hcast]
    push_cast
    ring

theorem nFeatN_cast (n N L : ℕ) :
    ((nFeatN n N L : ℕ) : ℚ) = (n * N) * (n * N + 1) / 2 * (L + 1) := by
  have h2 : (2 : ℕ) ∣ (n * N) * (n * N + 1) := (Nat.even_mul_succ_self (n * N)).two_dvd
  rw [nFeatN, Nat.cast_mul, Nat.cast_div h2 (by norm_num)]
  push_cast
  ring

theorem noCrossN_cast (n N L : ℕ) :
    ((noCrossN n N L : ℕ) : ℚ) = n * N * (N + 1) / 2 * (L + 1) := by
  have h2 : (2 : ℕ) ∣ n * N * (N + 1) := by
    rw [mul_assoc]
    exact ((Nat.even_mul_succ_self N).two_dvd).mul_left n
  rw [noCrossN, Nat.cast_mul, Nat.cast_div h2 (by norm_num)]
  push_cast
  ring

theorem gnof_true_eq (n N L : ℕ) :
    get_number_of_features n N L true = (nFeatN n N L : ℤ) := by
  have h : ((n * N : ℕ) : ℚ) * ((n * N : ℕ) + 1) / 2 * (L + 1)
      = ((nFeatN n N L : ℕ) : ℚ) := by
    rw [nFeatN_cast]
    try push_cast
    try ring
  rw [get_number_of_features, if_pos rfl, h, Int.floor_natCast]

theorem gnof_false_eq (n N L : ℕ) :
    get_number_of_features n N L false = (noCrossN n N L : ℤ) := by
  have h : (n : ℚ) * N * (N + 1) / 2 * (L + 1) = ((noCrossN n N L : ℕ) : ℚ) := by
    rw [noCrossN_cast]
    try push_cast
    try ring
  rw [get_number_of_features, if_neg (by simp), h, Int.floor_natCast]



theorem qstart_eq (n N L i j : ℕ) (hij : i ≤ j) (hj : j < n) :
    ((i : ℚ) + (if i < j then (1 : ℚ) else 0)) * n_elem_feat_symmQ N L
      + ((j : ℚ) + (i : ℚ) * (n : ℚ) - (i : ℚ) * ((i : ℚ) + 1) / 2
          - ((i : ℚ) + (if i < j then (1 : ℚ) else 0))) * n_elem_feat_unsymmQ N L
      = ((locStartN n N L i j : ℕ) : ℚ) := by
  have hin : i ≤ n := le_of_lt (lt_of_le_of_lt hij hj)
  rcases Nat.lt_or_ge i j with hlt | hge
  · rw [if_pos hlt, locStartN, if_neg (Nat.ne_of_lt hlt)]
    have hsub : ((j - i - 1 : ℕ) : ℚ) = (j : ℚ) - i - 1 := by
      have h1 : i + 1 ≤ j := hlt
      push_cast [Nat.sub_sub, Nat.cast_sub (by omega : i + 1 ≤ j)]
      ring
    push_cast [featSymm_cast, featUnsymm_cast, offBefore_cast n i hin, hsub]
    ring
  · have heq : i = j := le_antisymm hij hge
    subst heq
    rw [if_neg (lt_irrefl i), locStartN, if_pos rfl]
    push_cast [featSymm_cast, featUnsymm_cast, offBefore_cast n i hin]
    ring

theorem get_location_cross_eval (sp : List ℕ) (N L : ℕ) (hnd : sp.Nodup)
    (i j : ℕ) (hij : i ≤ j) (hj : j < sp.length) :
    get_location sp N L true sp[i] sp[j]
      = Except.ok ((locStartN sp.length N L i j : ℤ),
          ((locStartN sp.length N L i j + sizeN N L i j : ℕ) : ℤ)) := by
  have hi : i < sp.length := lt_of_le_of_lt hij hj
  have mem1 : sp[i] ∈ sp := List.getElem_mem hi
  have mem2 : sp[j] ∈ sp := List.getElem_mem hj
  have idx1 : sp.indexOf sp[i] = i := List.indexOf_getElem hnd i hi
  have idx2 : sp.indexOf sp[j] = j := List.indexOf_getElem hnd j hj
  rw [get_location, if_pos mem1, if_pos mem2]
  have hsel : ¬ j < i := by omega
  simp only [idx1, idx2, hsel, if_false, if_true]
  have hstart := qstart_eq sp.length N L i j hij hj
  have hfeat : (if i = j then n_elem_feat_symmQ N L else n_elem_feat_unsymmQ N L)
      = ((sizeN N L i j : ℕ) : ℚ) := by
    rw [sizeN]
    split
    · rw [featSymm_cast]
    · rw [featUnsymm_cast]
  rw [hstart, hfeat, Int.floor_natCast]
  congr 1
  norm_cast


theorem locStartN_diag (n N L i : ℕ) :
    locStartN n N L i i = i * featSymm N L + offBefore n i * featUnsymm N L := if_pos rfl

theorem locStartN_off (n N L i j : ℕ) (h : i ≠ j) :
    locStartN n N L i j
      = (i + 1) * featSymm N L + (offBefore n i + (j - i - 1)) * featUnsymm N L := if_neg h

theorem sizeN_diag (N L i : ℕ) : sizeN N L i i = featSymm N L := if_pos rfl

theorem sizeN_off (N L i j : ℕ) (h : i ≠ j) : sizeN N L i j = featUnsymm N L := if_neg h

theorem locStartN_succ (n N L i j : ℕ) (hij : i ≤ j) :
    locStartN n N L i j + sizeN N L i j = locStartN n N L i (j + 1) := by
  rcases Nat.lt_or_ge i j with hlt | hge
  · rw [locStartN_off n N L i j (Nat.ne_of_lt hlt), sizeN_off N L i j (Nat.ne_of_lt hlt),
      locStartN_off n N L i (j + 1) (by omega)]
    have h1 : j + 1 - i - 1 = (j - i - 1) + 1 := by omega
    rw [h1]
    ring
  · have heq : i = j := le_antisymm hij hge
    subst heq
    rw [locStartN_diag, sizeN_diag, locStartN_off n N L i (i + 1) (by omega)]
    have h1 : i + 1 - i - 1 = 0 := by omega
    rw [h1]
    ring

theorem locStartN_row_end (n N L i : ℕ) (hi : i < n) :
    locStartN n N L i (n - 1) + sizeN N L i (n - 1) = locStartN n N L (i + 1) (i + 1) := by
  have hoff : offBefore n (i + 1) = offBefore n i + (n - 1 - i) := rfl
  rcases Nat.lt_or_ge i (n - 1) with hlt | hge
  · rw [locStartN_off n N L i (n - 1) (Nat.ne_of_lt hlt), sizeN_off N L i (n - 1) (Nat.ne_of_lt hlt),
      locStartN_diag, hoff]
    have h1 : n - 1 - i = (n - 1 - i - 1) + 1 := by omega
    generalize hx : n - 1 - i - 1 = x at h1 ⊢
    rw [h1]
    ring
  · have heq : n - 1 = i := by omega
    rw [heq, locStartN_diag, sizeN_diag, locStartN_diag, hoff, heq]
    have h0 : i - i = 0 := by omega
    rw [h0]
    ring

theorem locStartN_mono_j (n N L i j j' : ℕ) (hij : i ≤ j) (hjj : j ≤ j') :
    locStartN n N L i j ≤ locStartN n N L i j' := by
  rcases Nat.lt_or_ge i j with hlt | hge
  · have hlt' : i < j' := lt_of_lt_of_le hlt hjj
    rw [locStartN_off n N L i j (Nat.ne_of_lt hlt), locStartN_off n N L i j' (Nat.ne_of_lt hlt')]
    have h2 : offBefore n i + (j - i - 1) ≤ offBefore n i + (j' - i - 1) := by omega
    exact Nat.add_le_add (le_refl _) (Nat.mul_le_mul_right _ h2)
  · have heq : i = j := le_antisymm hij hge
    subst heq
    rcases Nat.lt_or_ge i j' with hlt' | hge'
    · rw [locStartN_diag, locStartN_off n N L i j' (Nat.ne_of_lt hlt')]
      exact Nat.add_le_add (Nat.mul_le_mul_right _ (by omega))
        (Nat.mul_le_mul_right _ (by omega))
    · have h : i = j' := by omega
      subst h
      exact le_refl _

theorem locStartN_end_le_row (n N L i j : ℕ) (hij : i ≤ j) (hj : j < n) :
    locStartN n N L i j + sizeN N L i j ≤ locStartN n N L (i + 1) (i + 1) := by
  rcases Nat.lt_or_ge j (n - 1) with hlt | hge
  · rw [locStartN_succ n N L i j hij]
    calc locStartN n N L i (j + 1)
        ≤ locStartN n N L i (n - 1) := locStartN_mono_j n N L i (j + 1) (n - 1) (by omega) (by omega)
      _ ≤ locStartN n N L i (n - 1) + sizeN N L i (n - 1) := Nat.le_add_right _ _
      _ = locStartN n N L (i + 1) (i + 1) := locStartN_row_end n N L i (by omega)
  · have heq : j = n - 1 := by omega
    subst heq
    exact le_of_eq (locStartN_row_end n N L i (by omega))

theorem rowBase_mono (n N L : ℕ) : ∀ i k, i ≤ k → k ≤ n →
    locStartN n N L i i ≤ locStartN n N L k k := by
  intro i k
  induction k with
  | zero => intro h1 _; interval_cases i; exact le_refl _
  | succ k ih =>
    intro h1 h2
    rcases Nat.lt_or_ge i (k + 1) with hlt | hge
    · have hik : i ≤ k := by omega
      calc locStartN n N L i i ≤ locStartN n N L k k := ih hik (by omega)
        _ ≤ locStartN n N L k (n - 1) := locStartN_mono_j n N L k k (n - 1) (le_refl _) (by omega)
        _ ≤ locStartN n N L k (n - 1) + sizeN N L k (n - 1) := Nat.le_add_right _ _
        _ = locStartN n N L (k + 1) (k + 1) := locStartN_row_end n N L k (by omega)
    · have h : i = k + 1 := by omega
      subst h
      exact le_refl _

theorem locStartN_disjoint_le (n N L i j k l : ℕ) (hij : i ≤ j) (hj : j < n)
    (hkl : k ≤ l) (hl : l < n) (hlt : i < k ∨ (i = k ∧ j < l)) :
    locStartN n N L i j + sizeN N L i j ≤ locStartN n N L k l := by
  rcases hlt with hik | ⟨heq, hjl⟩
  · calc locStartN n N L i j + sizeN N L i j
        ≤ locStartN n N L (i + 1) (i + 1) := locStartN_end_le_row n N L i j hij hj
      _ ≤ locStartN n N L k k := rowBase_mono n N L (i + 1) k hik (by omega)
      _ ≤ locStartN n N L k l := locStartN_mono_j n N L k k l (le_refl _) hkl
  · subst heq
    rw [locStartN_succ n N L i j hij]
    exact locStartN_mono_j n N L i (j + 1) l (by omega) (by omega)


theorem locStartN_zero (n N L : ℕ) : locStartN n N L 0 0 = 0 := by
  rw [locStartN_diag]
  simp [offBefore]

theorem locStartN_nn (n N L : ℕ) : locStartN n N L n n = nFeatN n N L := by
  have h : ((locStartN n N L n n : ℕ) : ℚ) = ((nFeatN n N L : ℕ) : ℚ) := by
    rw [locStartN_diag, nFeatN_cast]
    push_cast [featSymm_cast, featUnsymm_cast, offBefore_cast n n (le_refl n)]
    rw [n_elem_feat_symmQ, n_elem_feat_unsymmQ]
    ring
  exact_mod_cast h

theorem Ico_disjoint_of_le {a b c d : ℤ} (h : b ≤ c) :
    Disjoint (Finset.Ico a b) (Finset.Ico c d) := by
  rw [Finset.disjoint_left]
  intro x hx hx2
  rw [Finset.mem_Ico] at hx hx2
  omega

theorem row_biUnion (n N L i : ℕ) : ∀ m a, n - a = m → i ≤ a → a < n →
    (Finset.Ico a n).biUnion (fun j => sliceIcoZ n N L i j)
      = Finset.Ico ((locStartN n N L i a : ℕ) : ℤ)
          ((locStartN n N L (i + 1) (i + 1) : ℕ) : ℤ) := by
  intro m
  induction m with
  | zero => intro a hm _ ha; omega
  | succ m ih =>
    intro a hm hia ha
    rw [← Nat.Ico_insert_succ_left ha, Finset.biUnion_insert]
    rcases Nat.lt_or_ge (a + 1) n with hlt | hge
    · rw [ih (a + 1) (by omega) (by omega) hlt]
      rw [sliceIcoZ]
      have hs : locStartN n N L i a + sizeN N L i a = locStartN n N L i (a + 1) :=
        locStartN_succ n N L i a hia
      rw [hs]
      apply Finset.Ico_union_Ico_eq_Ico
      · exact Nat.cast_le.mpr (locStartN_mono_j n N L i a (a + 1) hia (by omega))
      · exact Nat.cast_le.mpr (le_trans (Nat.le_add_right _ _)
          (locStartN_end_le_row n N L i (a + 1) (by omega) hlt))
    · have hend : a = n - 1 := by omega
      have hempty : Finset.Ico (a + 1) n = ∅ := by
        rw [Finset.Ico_eq_empty_iff]
        omega
      rw [hempty, Finset.biUnion_empty, Finset.union_empty, sliceIcoZ]
      subst hend
      rw [locStartN_row_end n N L i (by omega)]

theorem rows_biUnion (n N L : ℕ) : ∀ m, m ≤ n →
    (Finset.range m).biUnion
        (fun i => Finset.Ico ((locStartN n N L i i : ℕ) : ℤ)
          ((locStartN n N L (i + 1) (i + 1) : ℕ) : ℤ))
      = Finset.Ico ((locStartN n N L 0 0 : ℕ) : ℤ) ((locStartN n N L m m : ℕ) : ℤ) := by
  intro m
  induction m with
  | zero => intro _; simp
  | succ m ih =>
    intro hm
    rw [Finset.range_succ, Finset.biUnion_insert, ih (by omega), Finset.union_comm]
    apply Finset.Ico_union_Ico_eq_Ico
    · exact Nat.cast_le.mpr (rowBase_mono n N L 0 m (Nat.zero_le m) (by omega))
    · exact Nat.cast_le.mpr (rowBase_mono n N L m (m + 1) (by omega) hm)


theorem mem_validPairs (n : ℕ) (p : ℕ × ℕ) :
    p ∈ validPairs n ↔ p.1 ≤ p.2 ∧ p.2 < n := by
  obtain ⟨i, j⟩ := p
  simp only [validPairs, Finset.mem_biUnion, Finset.mem_range, Finset.mem_image,
    Finset.mem_Ico, Prod.mk.injEq]
  constructor
  · rintro ⟨a, ha, b, ⟨hab, hbn⟩, rfl, rfl⟩
    exact ⟨hab, hbn⟩
  · rintro ⟨hij, hjn⟩
    exact ⟨i, by omega, j, ⟨hij, hjn⟩, rfl, rfl⟩

theorem sliceFin_eq (sp : List ℕ) (N L : ℕ) (hnd : sp.Nodup) (i j : ℕ)
    (hij : i ≤ j) (hj : j < sp.length) :
    sliceFin sp N L (i, j) = sliceIcoZ sp.length N L i j := by
  have h1 : i < sp.length := lt_of_le_of_lt hij hj
  have g1 : sp.getD i 0 = sp[i] := List.getD_eq_getElem sp 0 h1
  have g2 : sp.getD j 0 = sp[j] := List.getD_eq_getElem sp 0 hj
  rw [sliceFin, g1, g2, get_location_cross_eval sp N L hnd i j hij hj]
  rfl

theorem slice_partition (sp : List ℕ) (N L : ℕ) (hnd : sp.Nodup) :
    (validPairs sp.length).biUnion (sliceFin sp N L)
      = Finset.Ico 0 (get_number_of_features sp.length N L true) := by
  have hcongr : (validPairs sp.length).biUnion (sliceFin sp N L)
      = (validPairs sp.length).biUnion (fun p => sliceIcoZ sp.length N L p.1 p.2) := by
    apply Finset.biUnion_congr rfl
    intro p hp
    obtain ⟨i, j⟩ := p
    rw [mem_validPairs] at hp
    exact sliceFin_eq sp N L hnd i j hp.1 hp.2
  rw [hcongr, validPairs, Finset.biUnion_biUnion]
  have hrows : ∀ a ∈ Finset.range sp.length,
      ((Finset.Ico a sp.length).image (fun j => (a, j))).biUnion
          (fun p => sliceIcoZ sp.length N L p.1 p.2)
        = Finset.Ico ((locStartN sp.length N L a a : ℕ) : ℤ)
            ((locStartN sp.length N L (a + 1) (a + 1) : ℕ) : ℤ) := by
    intro a ha
    rw [Finset.mem_range] at ha
    rw [Finset.image_biUnion]
    exact row_biUnion sp.length N L a (sp.length - a) a rfl (le_refl a) ha
  rw [Finset.biUnion_congr rfl hrows, rows_biUnion sp.length N L sp.length (le_refl _),
    locStartN_zero, locStartN_nn, gnof_true_eq]
  norm_num

theorem slice_disjoint (sp : List ℕ) (N L : ℕ) (hnd : sp.Nodup) :
    ∀ p ∈ validPairs sp.length, ∀ q ∈ validPairs sp.length, p ≠ q →
      Disjoint (sliceFin sp N L p) (sliceFin sp N L q) := by
  intro p hp q hq hne
  obtain ⟨i, j⟩ := p
  obtain ⟨k, l⟩ := q
  rw [mem_validPairs] at hp hq
  rw [sliceFin_eq sp N L hnd i j hp.1 hp.2, sliceFin_eq sp N L hnd k l hq.1 hq.2,
    sliceIcoZ, sliceIcoZ]
  have hne2 : ¬ (i = k ∧ j = l) := by
    intro h
    exact hne (by rw [h.1, h.2])
  have hcase : (i < k ∨ (i = k ∧ j < l)) ∨ (k < i ∨ (k = i ∧ l < j)) := by omega
  rcases hcase with h1 | h2
  · exact Ico_disjoint_of_le (Nat.cast_le.mpr
      (locStartN_disjoint_le sp.length N L i j k l hp.1 hp.2 hq.1 hq.2 h1))
  · exact (Ico_disjoint_of_le (Nat.cast_le.mpr
      (locStartN_disjoint_le sp.length N L k l i j hq.1 hq.2 hp.1 hp.2 h2))).symm

/-- Claim C2: with crossover enabled, the `get_location` slices over all
unordered pairs of configured species are pairwise disjoint and cover exactly
`[0, get_number_of_features())`. -/
theorem C2_crossover_slices_partition (sp : List ℕ) (N L : ℕ)
    (hnd : sp.Nodup) (hN : 1 ≤ N) :
    (∀ p ∈ validPairs sp.length, ∀ q ∈ validPairs sp.length, p ≠ q →
        Disjoint (sliceFin sp N L p) (sliceFin sp N L q)) ∧
    (validPairs sp.length).biUnion (sliceFin sp N L)
      = Finset.Ico 0 (get_number_of_features sp.length N L true) :=
  ⟨slice_disjoint sp N L hnd, slice_partition sp N L hnd⟩

/-- Witness for C2 at the concrete configuration `species=[1,8]`,
`nmax=1`, `lmax=0`. -/
theorem C2_crossover_slices_partition_witness :
    ([1, 8] : List ℕ).Nodup ∧ 1 ≤ 1 ∧
    ((∀ p ∈ validPairs ([1, 8] : List ℕ).length,
        ∀ q ∈ validPairs ([1, 8] : List ℕ).length, p ≠ q →
        Disjoint (sliceFin [1, 8] 1 0 p) (sliceFin [1, 8] 1 0 q)) ∧
    (validPairs ([1, 8] : List ℕ).length).biUnion (sliceFin [1, 8] 1 0)
      = Finset.Ico 0 (get_number_of_features ([1, 8] : List ℕ).length 1 0 true)) :=
  ⟨by decide, by decide, C2_crossover_slices_partition [1, 8] 1 0 (by decide) (by decide)⟩

/-- Claim C8: with crossover enabled, `get_location` is symmetric in the
order of the two configured species (the pair is sorted internally). -/
theorem C8_get_location_symmetric (sp : List ℕ) (N L : ℕ) (z1 z2 : ℕ)
    (h1 : z1 ∈ sp) (h2 : z2 ∈ sp) :
    get_location sp N L true z1 z2 = get_location sp N L true z2 z1 := by
  rw [get_location, get_location, if_pos h1, if_pos h2, if_pos h2, if_pos h1]
  set i0 := sp.indexOf z1 with hi0
  set j0 := sp.indexOf z2 with hj0
  rcases lt_trichotomy j0 i0 with hlt | heq | hgt
  · simp only [if_pos hlt, if_neg (by omega : ¬ i0 < j0)]
  · simp only [heq, lt_irrefl, if_false]
  · simp only [if_pos hgt, if_neg (by omega : ¬ j0 < i0)]

/-- Witness for C8 at `species=[1,8]`, `nmax=2`, `lmax=1`. -/
theorem C8_get_location_symmetric_witness :
    (1 ∈ ([1, 8] : List ℕ)) ∧ (8 ∈ ([1, 8] : List ℕ)) ∧
    get_location [1, 8] 2 1 true 1 8 = get_location [1, 8] 2 1 true 8 1 :=
  ⟨by decide, by decide,
    C8_get_location_symmetric [1, 8] 2 1 1 8 (by decide) (by decide)⟩

theorem get_location_nocross_error (sp : List ℕ) (N L : ℕ) (z1 z2 : ℕ)
    (h1 : z1 ∈ sp) (h2 : z2 ∈ sp) (hne : z1 ≠ z2) :
    get_location sp N L false z1 z2 = Except.error LocErr.noCross := by
  have hne' : sp.indexOf z1 ≠ sp.indexOf z2 := fun h =>
    hne ((List.indexOf_inj h1 h2).mp h)
  rw [get_location, if_pos h1, if_pos h2]
  set i0 := sp.indexOf z1 with hi0
  set j0 := sp.indexOf z2 with hj0
  rcases lt_trichotomy j0 i0 with hlt | heq | hgt
  · simp only [if_pos hlt, Bool.false_eq_true, if_false, if_neg (by omega : ¬ j0 = i0)]
  · exact absurd heq.symm hne'
  · simp only [if_neg (by omega : ¬ j0 < i0), Bool.false_eq_true, if_false,
      if_neg (by omega : ¬ i0 = j0)]

theorem get_location_nocross_eval (sp : List ℕ) (N L : ℕ) (hnd : sp.Nodup)
    (i : ℕ) (hi : i < sp.length) :
    get_location sp N L false sp[i] sp[i]
      = Except.ok (((i * featSymm N L : ℕ) : ℤ), (((i + 1) * featSymm N L : ℕ) : ℤ)) := by
  have mem1 : sp[i] ∈ sp := List.getElem_mem hi
  have idx : sp.indexOf sp[i] = i := List.indexOf_getElem hnd i hi
  rw [get_location, if_pos mem1, if_pos mem1]
  simp only [idx, lt_irrefl, if_false, Bool.false_eq_true, if_pos rfl]
  have h1 : (i : ℚ) * n_elem_feat_symmQ N L = ((i * featSymm N L : ℕ) : ℚ) := by
    rw [Nat.cast_mul, featSymm_cast]
  rw [h1, Int.floor_natCast]
  have h2 : (((i * featSymm N L : ℕ) : ℤ) : ℚ) + n_elem_feat_symmQ N L
      = (((i + 1) * featSymm N L : ℕ) : ℚ) := by
    rw [← featSymm_cast]
    push_cast
    ring
  rw [h2, Int.floor_natCast]
  exact if_pos trivial

/-- Claim C9: with crossover disabled, `get_location` raises `ValueError` for
every pair of distinct configured species, and returns the slice
`[i*K, (i+1)*K)` with `K = nmax*(nmax+1)/2*(lmax+1)` for the `i`-th
configured species paired with itself. -/
theorem C9_get_location_nocross (sp : List ℕ) (N L : ℕ) (hnd : sp.Nodup) :
    (∀ z1 z2 : ℕ, z1 ∈ sp → z2 ∈ sp → z1 ≠ z2 →
        get_location sp N L false z1 z2 = Except.error LocErr.noCross) ∧
    (∀ i : ℕ, ∀ h : i < sp.length,
        get_location sp N L false sp[i] sp[i]
          = Except.ok (((i * (N * (N + 1) / 2 * (L + 1)) : ℕ) : ℤ),
              (((i + 1) * (N * (N + 1) / 2 * (L + 1)) : ℕ) : ℤ))) :=
  ⟨fun z1 z2 h1 h2 hne => get_location_nocross_error sp N L z1 z2 h1 h2 hne,
    fun i h => get_location_nocross_eval sp N L hnd i h⟩

/-- Witness for C9 at `species=[1,8]`, `nmax=2`, `lmax=1`. -/
theorem C9_get_location_nocross_witness :
    ([1, 8] : List ℕ).Nodup ∧
    get_location [1, 8] 2 1 false 1 8 = Except.error LocErr.noCross ∧
    get_location [1, 8] 2 1 false 8 8 = Except.ok (6, 12) := by
  refine ⟨by decide, ?_, ?_⟩
  · exact (C9_get_location_nocross [1, 8] 2 1 (by decide)).1 1 8 (by decide) (by decide)
      (by decide)
  · have h := (C9_get_location_nocross [1, 8] 2 1 (by decide)).2 1 (by decide)
    exact_mod_cast h

/-- Claim C1: `get_number_of_features` equals the closed-form combinatorial
formulas, for crossover and no-crossover. -/
theorem C1_feature_count (n N L : ℕ) (hN : 1 ≤ N) :
    get_number_of_features n N L true = (((n * N) * (n * N + 1) / 2 * (L + 1) : ℕ) : ℤ) ∧
    get_number_of_features n N L false = ((n * N * (N + 1) / 2 * (L + 1) : ℕ) : ℤ) :=
  ⟨gnof_true_eq n N L, gnof_false_eq n N L⟩

/-- Witness for C1 at `n_elem=2`, `nmax=3`, `lmax=4`. -/
theorem C1_feature_count_witness :
    1 ≤ 3 ∧
    (get_number_of_features 2 3 4 true = (((2 * 3) * (2 * 3 + 1) / 2 * (4 + 1) : ℕ) : ℤ) ∧
     get_number_of_features 2 3 4 false = ((2 * 3 * (3 + 1) / 2 * (4 + 1) : ℕ) : ℤ)) :=
  ⟨by decide, C1_feature_count 2 3 4 (by decide)⟩

/-- Claim C3 counterexample: for `species=[1,8]`, `nmax=2`, `lmax=1`,
`crossover=False`, `get_number_of_features()` is not 6. -/
theorem C3_feature_count_counterexample :
    get_number_of_features ([1, 8] : List ℕ).length 2 1 false ≠ 6 := by
  rw [gnof_false_eq]
  decide

/-- Claim C3 (amended): for `species=[1,8]`, `nmax=2`, `lmax=1`,
`crossover=False`, the feature vector length equals 12. -/
theorem C3_feature_count_amended :
    get_number_of_features ([1, 8] : List ℕ).length 2 1 false = 12 := by
  rw [gnof_false_eq]
  decide

/-- Claim C5: `derivatives` validates eagerly in the order: sparse output,
analytical-with-averaging, periodic, analytical-with-polynomial; when any
check fires, the error is raised and nothing is computed. -/
theorem C5_derivatives_validation_order (sparse : Bool) (average : String)
    (periodic : Bool) (rbf : String) (method : String)
    (hm : method = "numerical" ∨ method = "analytical" ∨ method = "auto") :
    (sparse = true →
      derivatives_validate sparse average periodic rbf method
        = some DerivErr.sparseDerivs) ∧
    (sparse = false → average ≠ "off" → method = "analytical" →
      derivatives_validate sparse average periodic rbf method
        = some DerivErr.analyticalAveraged) ∧
    (sparse = false → (average = "off" ∨ method ≠ "analytical") → periodic = true →
      derivatives_validate sparse average periodic rbf method
        = some DerivErr.periodicDerivs) ∧
    (sparse = false → (average = "off" ∨ method ≠ "analytical") → periodic = false →
      rbf = "polynomial" → method = "analytical" →
      derivatives_validate sparse average periodic rbf method
        = some DerivErr.analyticalPoly) ∧
    (∀ (δ : Type) (compute : Unit → δ) (e : DerivErr),
      derivatives_validate sparse average periodic rbf method = some e →
      derivatives_run compute sparse average periodic rbf method = Except.error e) := by
  refine ⟨?_, ?_, ?_, ?_, ?_⟩
  · intro hsp
    subst hsp
    simp [derivatives_validate, hm]
  · intro hsp hav hme
    subst hsp hme
    simp [derivatives_validate, hav]
  · intro hsp hav hper
    subst hsp hper
    rcases hav with hoff | hnm
    · simp [derivatives_validate, hm, hoff]
    · rcases hm with rfl | rfl | rfl
      · simp [derivatives_validate]
      · exact absurd rfl hnm
      · simp [derivatives_validate]
  · intro hsp hav hper hrbf hme
    subst hsp hper hme hrbf
    rcases hav with hoff | hnm
    · simp [derivatives_validate, hoff]
    · simp at hnm
  · intro δ compute e he
    rw [derivatives_run, he]

/-- Witness for C5 with the sparse configuration. -/
theorem C5_derivatives_validation_order_witness :
    (("numerical" : String) = "numerical" ∨ ("numerical" : String) = "analytical"
      ∨ ("numerical" : String) = "auto") ∧
    derivatives_validate true "off" false "gto" "numerical"
      = some DerivErr.sparseDerivs :=
  ⟨by decide,
    (C5_derivatives_validation_order true "off" false "gto" "numerical" (by decide)).1 rfl⟩


theorem parseEntry_ne_cell (nA : ℕ) (x : PyVal) :
    parseEntry nA x ≠ Except.error PrepErr.cell := by
  rcases x with i | ys | _ <;> rw [parseEntry] <;> first
    | (split <;> simp)
    | simp

theorem parseEntries_ne_cell (nA : ℕ) : ∀ xs : List PyVal,
    parseEntries nA xs ≠ Except.error PrepErr.cell := by
  intro xs
  induction xs with
  | nil => rw [parseEntries]; simp
  | cons x xs ih =>
    rw [parseEntries]
    rcases hx : parseEntry nA x with e | c
    · have h1 := parseEntry_ne_cell nA x
      rw [hx] at h1
      simpa using fun h => h1 (by rw [h])
    · rcases hxs : parseEntries nA xs with e | cs
      · simpa using fun h => ih (by rw [hxs, h])
      · simp

theorem parseEntries_bad (nA : ℕ) : ∀ (xs : List PyVal) (ys : List PyVal),
    PyVal.seq ys ∈ xs → ys.length ≠ 3 →
    (∀ i : ℤ, PyVal.int i ∈ xs → -(nA : ℤ) ≤ i ∧ i < nA) →
    parseEntries nA xs = Except.error PrepErr.badPositions := by
  intro xs
  induction xs with
  | nil => intro ys h; simp at h
  | cons x xs ih =>
    intro ys hmem hlen hints
    rw [parseEntries]
    rcases List.mem_cons.mp hmem with hhead | htail
    · rw [← hhead, parseEntry, if_neg hlen]
    · rcases x with i | zs | _
      · have hi := hints i (List.mem_cons_self _ _)
        rw [parseEntry, if_pos hi,
          ih ys htail hlen (fun i hi2 => hints i (List.mem_cons_of_mem _ hi2))]
      · rw [parseEntry]
        by_cases hz : zs.length = 3
        · rw [if_pos hz, ih ys htail hlen (fun i hi2 => hints i (List.mem_cons_of_mem _ hi2))]
        · rw [if_neg hz]
      · rw [parseEntry]
theorem parseEntries_fails (nA : ℕ) : ∀ (xs ys : List PyVal), PyVal.seq ys ∈ xs →
    ys.length ≠ 3 → ∃ e, parseEntries nA xs = Except.error e := by
  intro xs
  induction xs with
  | nil => intro ys h; simp at h
  | cons x xs ih =>
    intro ys hmem hlen
    rw [parseEntries]
    rcases List.mem_cons.mp hmem with hhead | htail
    · rw [← hhead, parseEntry, if_neg hlen]
      exact ⟨PrepErr.badPositions, rfl⟩
    · rcases hx : parseEntry nA x with e | c
      · exact ⟨e, rfl⟩
      · obtain ⟨e, he⟩ := ih ys htail hlen
        rw [he]
        exact ⟨e, rfl⟩

theorem positionsDispatch_ne_cell (nA : ℕ) (positions : Option PyVal) :
    positionsDispatch nA positions ≠ Except.error PrepErr.cell := by
  rcases positions with _ | v
  · simp [positionsDispatch]
  · rcases v with i | xs | _
    · simp [positionsDispatch]
    · rw [positionsDispatch]
      by_cases hx : xs.length = 0
      · rw [if_pos hx]
        simp
      · rw [if_neg hx]
        exact parseEntries_ne_cell _ _
    · simp [positionsDispatch]

/-- Claim C7 counterexample: with the polynomial radial basis, construction
succeeds with `rcut = -1` (no rcut validation on the polynomial path), so
`rcut <= 0` is not rejected for every basis family. -/
theorem C7_rcut_counterexample :
    soap_init true true (-1) 1 2 0 "polynomial" "off" = Except.ok () := rfl

/-- Claim C7 (amended): `__init__` rejects `rcut <= 1` (hence any
`rcut <= 0`) with a `ValueError` for the gto basis only; the polynomial
branch performs no rcut validation and construction succeeds for any rcut
when the remaining parameters are valid. -/
theorem C7_rcut_validation (speciesOk gtoBasisOk : Bool) (rcut sigma : ℚ)
    (nmax lmax : ℤ) (average : String)
    (hsp : speciesOk = true) (hsig : 0 < sigma) (hl : 0 ≤ lmax) (hn : 1 ≤ nmax)
    (hav : average = "off" ∨ average = "inner" ∨ average = "outer") :
    (rcut ≤ 0 →
      soap_init speciesOk gtoBasisOk rcut sigma nmax lmax "gto" average
        = Except.error InitErr.gtoSmallRcut) ∧
    (lmax ≤ 20 →
      soap_init speciesOk gtoBasisOk rcut sigma nmax lmax "polynomial" average
        = Except.ok ()) := by
  subst hsp
  have h2 : ¬ sigma ≤ 0 := not_le.mpr hsig
  have h3 : ¬ lmax < 0 := not_lt.mpr hl
  have h5 : ¬ nmax < 1 := not_lt.mpr hn
  constructor
  · intro hr
    have h8 : rcut ≤ 1 := le_trans hr (by norm_num)
    simp [soap_init, h2, h3, h5, hav, h8]
  · intro hl20
    have h9 : ¬ lmax > 20 := not_lt.mpr hl20
    simp [soap_init, h2, h3, h5, hav, h9]

/-- Witness for C7 (amended) at `rcut = -1`. -/
theorem C7_rcut_validation_witness :
    (0 : ℚ) < 1 ∧
    soap_init true true (-1) 1 2 0 "gto" "off" = Except.error InitErr.gtoSmallRcut ∧
    soap_init true true (-1) 1 2 0 "polynomial" "off" = Except.ok () := by
  have h := C7_rcut_validation true true (-1) 1 2 0 "off" rfl (by norm_num) (by decide)
    (by decide) (Or.inl rfl)
  exact ⟨by norm_num, h.1 (by norm_num), h.2 (by decide)⟩

/-- Claim C6: when periodic, a zero scalar-triple-product cell makes
`prepare_centers` (and hence `create` and `derivatives`, which call it before
any computation) raise; when non-periodic, a degenerate cell never causes an
error: the cell error cannot occur and the result does not depend on the
cell at all. -/
theorem C6_cell_validation (species : List ℕ) (sys : PySystem)
    (positions : Option PyVal) :
    (tripleProduct sys.cell = 0 →
      ∃ e, prepare_centers species true sys positions = Except.error e) ∧
    (sys.numbers.all (fun z => species.contains z) = true →
      tripleProduct sys.cell = 0 →
      prepare_centers species true sys positions = Except.error PrepErr.cell) ∧
    (∀ e, prepare_centers species false sys positions = Except.error e →
      e ≠ PrepErr.cell) ∧
    (∀ c : (ℚ × ℚ × ℚ) × (ℚ × ℚ × ℚ) × (ℚ × ℚ × ℚ),
      prepare_centers species false { sys with cell := c } positions
        = prepare_centers species false sys positions) := by
  refine ⟨?_, ?_, ?_, ?_⟩
  · intro h0
    by_cases hall : (sys.numbers.all fun z => species.contains z) = true
    · refine ⟨PrepErr.cell, ?_⟩
      rw [prepare_centers, if_neg (not_not_intro hall),
        if_pos (show (true = true) ∧ tripleProduct sys.cell = 0 from ⟨rfl, h0⟩)]
    · exact ⟨PrepErr.species, by rw [prepare_centers, if_pos hall]⟩
  · intro hall h0
    rw [prepare_centers, if_neg (not_not_intro hall),
      if_pos (show (true = true) ∧ tripleProduct sys.cell = 0 from ⟨rfl, h0⟩)]
  · intro e he heq
    subst heq
    by_cases hall : (sys.numbers.all fun z => species.contains z) = true
    · rw [prepare_centers, if_neg (not_not_intro hall), if_neg (by simp)] at he
      exact positionsDispatch_ne_cell _ _ he
    · rw [prepare_centers, if_pos hall] at he
      exact absurd he (by simp)
  · intro c
    simp [prepare_centers]

/-- Witness for C6 with a one-atom structure and a degenerate cell. -/
theorem C6_cell_validation_witness :
    tripleProduct ((1, 0, 0), (2, 0, 0), (0, 0, 0)) = 0 ∧
    prepare_centers [1] true ⟨[(0, 0, 0)], [1], ((1, 0, 0), (2, 0, 0), (0, 0, 0))⟩ none
      = Except.error PrepErr.cell := by
  have ht : tripleProduct ((1, 0, 0), (2, 0, 0), (0, 0, 0)) = 0 := by
    norm_num [tripleProduct, cross3, dot3]
  exact ⟨ht,
    (C6_cell_validation [1] ⟨[(0, 0, 0)], [1], ((1, 0, 0), (2, 0, 0), (0, 0, 0))⟩ none).2.1
      rfl ht⟩
theorem positionsDispatch_bad (nA : ℕ) :
    (∀ v : PyVal, (v = PyVal.seq [] ∨ ∀ xs, v ≠ PyVal.seq xs) →
        positionsDispatch nA (some v) = Except.error PrepErr.badPositions) ∧
    (∀ (xs ys : List PyVal), PyVal.seq ys ∈ xs → ys.length ≠ 3 →
        (∀ i : ℤ, PyVal.int i ∈ xs → -(nA : ℤ) ≤ i ∧ i < nA) →
        positionsDispatch nA (some (PyVal.seq xs)) = Except.error PrepErr.badPositions) := by
  constructor
  · intro v hv
    rcases hv with rfl | hns
    · rw [positionsDispatch, if_pos (show ([] : List PyVal).length = 0 from rfl)]
    · rcases v with i | xs | _
      · rw [positionsDispatch]
        exact fun xs h => PyVal.noConfusion h
      · exact absurd rfl (hns xs)
      · rw [positionsDispatch]
        exact fun xs h => PyVal.noConfusion h
  · intro xs ys hmem hlen hints
    rw [positionsDispatch, if_neg (by rintro h; rw [List.length_eq_zero] at h; subst h; simp at hmem)]
    exact parseEntries_bad nA xs ys hmem hlen hints

/-- Claim C10 (amended): `prepare_centers` (called by `create` and
`derivatives` before any computation) rejects malformed `positions`: an
empty sequence, a non-sequence value, or a sequence containing a Cartesian
entry whose length is not 3 all make the call fail; the error is the
positions `ValueError` for the first two categories (exactly that error once
the species and cell checks pass), and for the bad-entry category exactly
when every integer entry is a valid index — an out-of-range integer entry
ahead of the bad entry raises `IndexError` instead (see the
counterexample). -/
theorem C10_positions_validation (species : List ℕ) (periodic : Bool) (sys : PySystem) :
    (∀ v : PyVal, (v = PyVal.seq [] ∨ ∀ xs, v ≠ PyVal.seq xs) →
        (prepare_centers species periodic sys (some v)).isOk = false) ∧
    (∀ (xs ys : List PyVal), PyVal.seq ys ∈ xs → ys.length ≠ 3 →
        (prepare_centers species periodic sys (some (PyVal.seq xs))).isOk = false) ∧
    ((sys.numbers.all fun z => species.contains z) = true →
      ¬ (periodic = true ∧ tripleProduct sys.cell = 0) →
      (∀ v : PyVal, (v = PyVal.seq [] ∨ ∀ xs, v ≠ PyVal.seq xs) →
          prepare_centers species periodic sys (some v)
            = Except.error PrepErr.badPositions) ∧
      (∀ (xs ys : List PyVal), PyVal.seq ys ∈ xs → ys.length ≠ 3 →
          (∀ i : ℤ, PyVal.int i ∈ xs →
            -(sys.positions.length : ℤ) ≤ i ∧ i < sys.positions.length) →
          prepare_centers species periodic sys (some (PyVal.seq xs))
            = Except.error PrepErr.badPositions)) := by
  have hmain : (sys.numbers.all fun z => species.contains z) = true →
      ¬ (periodic = true ∧ tripleProduct sys.cell = 0) →
      (∀ v : PyVal, (v = PyVal.seq [] ∨ ∀ xs, v ≠ PyVal.seq xs) →
          prepare_centers species periodic sys (some v)
            = Except.error PrepErr.badPositions) ∧
      (∀ (xs ys : List PyVal), PyVal.seq ys ∈ xs → ys.length ≠ 3 →
          (∀ i : ℤ, PyVal.int i ∈ xs →
            -(sys.positions.length : ℤ) ≤ i ∧ i < sys.positions.length) →
          prepare_centers species periodic sys (some (PyVal.seq xs))
            = Except.error PrepErr.badPositions) := by
    intro hall hcell
    constructor
    · intro v hv
      rw [prepare_centers, if_neg (not_not_intro hall), if_neg hcell]
      exact (positionsDispatch_bad sys.positions.length).1 v hv
    · intro xs ys hmem hlen hints
      rw [prepare_centers, if_neg (not_not_intro hall), if_neg hcell]
      exact (positionsDispatch_bad sys.positions.length).2 xs ys hmem hlen hints
  refine ⟨?_, ?_, hmain⟩
  · intro v hv
    by_cases hall : (sys.numbers.all fun z => species.contains z) = true
    · by_cases hcell : periodic = true ∧ tripleProduct sys.cell = 0
      · rw [prepare_centers, if_neg (not_not_intro hall), if_pos hcell]
        rfl
      · rw [(hmain hall hcell).1 v hv]
        rfl
    · rw [prepare_centers, if_pos hall]
      rfl
  · intro xs ys hmem hlen
    by_cases hall : (sys.numbers.all fun z => species.contains z) = true
    · by_cases hcell : periodic = true ∧ tripleProduct sys.cell = 0
      · rw [prepare_centers, if_neg (not_not_intro hall), if_pos hcell]
        rfl
      · rw [prepare_centers, if_neg (not_not_intro hall), if_neg hcell, positionsDispatch,
          if_neg (show ¬ xs.length = 0 from by
            rintro h
            rw [List.length_eq_zero] at h
            subst h
            simp at hmem)]
        obtain ⟨e, he⟩ := parseEntries_fails sys.positions.length xs ys hmem hlen
        rw [he]
        rfl
    · rw [prepare_centers, if_pos hall]
      rfl

/-- Claim C10 counterexample: on a one-atom structure, a `positions`
sequence containing the length-2 Cartesian entry `[1, 2]` preceded by the
out-of-range index 99 makes `prepare_centers` raise the `IndexError` coming
from `system.get_positions()[99]` (soap.py line 206) — which is none of the
`ValueError`s — refuting the claim that every such input raises a
`ValueError`. -/
theorem C10_positions_validation_counterexample :
    prepare_centers [1] false ⟨[(0, 0, 0)], [1], ((1, 0, 0), (0, 1, 0), (0, 0, 1))⟩
        (some (PyVal.seq [PyVal.int 99, PyVal.seq [PyVal.int 1, PyVal.int 2]]))
      = Except.error PrepErr.indexRange ∧
    PrepErr.indexRange ≠ PrepErr.species ∧
    PrepErr.indexRange ≠ PrepErr.cell ∧
    PrepErr.indexRange ≠ PrepErr.badPositions :=
  ⟨rfl, by decide, by decide, by decide⟩

/-- Witness for C10 with an empty positions list. -/
theorem C10_positions_validation_witness :
    PyVal.seq [] = PyVal.seq [] ∧
    (prepare_centers [1] false ⟨[(0, 0, 0)], [1], ((1, 0, 0), (0, 1, 0), (0, 0, 1))⟩
        (some (PyVal.seq []))).isOk = false :=
  ⟨rfl,
    (C10_positions_validation [1] false
        ⟨[(0, 0, 0)], [1], ((1, 0, 0), (0, 1, 0), (0, 0, 1))⟩).1
      (PyVal.seq []) (Or.inl rfl)⟩

/-- Claim C4: `get_basis_gto` computes, for each `l` in 0..9, the exponents
`alphas[l][n] = -ln(1e-3/a_n^l)/a_n^2` over decay radii linearly spaced in
`[1, rcut]`, mixing matrices `betas[l]` as the numerical inverse square root
of the overlap matrix `S = 0.5*Gamma(l+3/2)*(alpha_n+alpha_m)^(-(l+3/2))`,
and fails exactly when the computed matrix square root is complex. -/
theorem C4_gto_basis (nmax : ℕ)
    (sqrtm : Matrix (Fin nmax) (Fin nmax) ℝ → Option (Matrix (Fin nmax) (Fin nmax) ℝ))
    (rcut : ℝ) :
    (get_basis_gto nmax sqrtm rcut = none ↔
      ∃ l : Fin 10, sqrtm (gto_S rcut nmax l)⁻¹ = none) ∧
    (∀ ab, get_basis_gto nmax sqrtm rcut = some ab →
      (∀ (l : Fin 10) (k : ℕ),
        ab.1 l k = -Real.log (0.001 / gto_a rcut nmax k ^ (l : ℕ)) / gto_a rcut nmax k ^ 2) ∧
      (∀ l : Fin 10, some (ab.2 l) = sqrtm (gto_S rcut nmax l)⁻¹)) ∧
    (∀ (l : Fin 10) (p q : Fin nmax),
      gto_S rcut nmax (l : ℕ) p q = 0.5 * Real.Gamma (((l : ℕ) : ℝ) + 3 / 2)
        * (gto_alphas rcut nmax l p + gto_alphas rcut nmax l q)
            ^ (-(((l : ℕ) : ℝ)) - 3 / 2)) := by
  refine ⟨?_, ?_, fun l p q => rfl⟩
  · rw [get_basis_gto]
    split
    · rename_i h
      
      constructor
      · intro hc
        exact absurd hc (by simp)
      · rintro ⟨l, hl⟩
        have := h l
        rw [hl] at this
        simp at this
    · rename_i h
      push_neg at h
      obtain ⟨l, hl⟩ := h
      exact iff_of_true rfl ⟨l, Option.not_isSome_iff_eq_none.mp hl⟩
  · intro ab hab
    rw [get_basis_gto] at hab
    split at hab
    · rename_i h
      obtain rfl := Option.some.inj hab.symm
      exact ⟨fun l k => rfl, fun l => (Option.some_get (h l)).symm ▸ rfl⟩
    · exact absurd hab (by simp)

/-- Witness for C4: a square-root routine that always reports a complex
result makes basis construction fail. -/
theorem C4_gto_basis_witness :
    get_basis_gto 1 (fun _ => none) 2 = none :=
  (C4_gto_basis 1 (fun _ => none) 2).1.mpr ⟨0, rfl⟩

end Soap
